import Mathlib

/-!
Verification of the WebCiv renderer core (`src/engine/webciv-render.js` and the
engine definitions it relies on).  The JavaScript sources are shallowly embedded
below: pure functions become Lean functions, mutable loops become folds over the
exact iteration sequences, `Int32Array` bitsets become lists of 32-bit words,
and JavaScript integer arithmetic (`>>`, `&`, `|`, `%` on 32-bit values) is
rendered by the corresponding `Nat`/`Int` operations.
-/

namespace WebCiv

/-! ## EdgeFlags (`webciv-core`, `const EdgeFlags = freeze({...})`) -/

namespace EdgeFlags

def None : Nat := 0x0000
def Top : Nat := 0x0001
def Right : Nat := 0x0002
def Bottom : Nat := 0x0004
def Left : Nat := 0x0008
def TopRight : Nat := 0x0010
def BottomRight : Nat := 0x0020
def BottomLeft : Nat := 0x0040
def TopLeft : Nat := 0x0080
def Sides : Nat := 0x000F
def Corners : Nat := 0x00F0

end EdgeFlags

/-! ## Terrain constants (`webciv-core`) -/

namespace TerrainType

def Desert : Nat := 0
def Grassland : Nat := 2
def Ocean : Nat := 10

end TerrainType

namespace TerrainModifier

def kRiver : Nat := 0x0001
def kRoad : Nat := 0x0010
def kRailroad : Nat := 0x0020

end TerrainModifier

/-! ## `simplifyRoadEdges` (webciv-render.js lines 30-44) -/

def MaskTL : Nat := EdgeFlags.TopLeft ||| EdgeFlags.Top ||| EdgeFlags.Left
def MaskTR : Nat := EdgeFlags.TopRight ||| EdgeFlags.Top ||| EdgeFlags.Right
def MaskBL : Nat := EdgeFlags.BottomLeft ||| EdgeFlags.Bottom ||| EdgeFlags.Left
def MaskBR : Nat := EdgeFlags.BottomRight ||| EdgeFlags.Bottom ||| EdgeFlags.Right

/-- `function simplifyRoadEdges(edges)`: successively drops a diagonal road
edge whenever the diagonal and both adjacent side edges are set. -/
def simplifyRoadEdges (edges : Nat) : Nat :=
  let edges := if edges &&& MaskTL = MaskTL then edges ^^^ EdgeFlags.TopLeft else edges
  let edges := if edges &&& MaskTR = MaskTR then edges ^^^ EdgeFlags.TopRight else edges
  let edges := if edges &&& MaskBL = MaskBL then edges ^^^ EdgeFlags.BottomLeft else edges
  let edges := if edges &&& MaskBR = MaskBR then edges ^^^ EdgeFlags.BottomRight else edges
  edges

/-! ## `makeTransitionData` (webciv-render.js lines 70-102)

The JS builder keeps a growing `comb` array (returned as `PRE`) and a 256-entry
`lut` initialised to `-1` (returned as `LUT`).  The outer loop runs `side` over
the indices of the 16-entry `sides` table, the inner loop runs `corner` over
`16, 32, ..., 240`.  Both loops are embedded as left folds over the exact
iteration sequences. -/

/-- Builder state: the growing `comb` array and the 256-entry `lut` array
(initialised to all `-1`).  The `lut` array is embedded as the function from
indices to contents; every index the builder reads or writes is below 256
whenever the side table has 16 entries (`side < 16`, `side ||| x < 256`). -/
structure TransState where
  comb : List Nat
  lut : Nat → Int

/-- Inner-loop body of `makeTransitionData`: one iteration for a given
`effective = sides[side]`, current `side` and `corner` value. -/
def transStep (effective side : Nat) (st : TransState) (corner : Nat) : TransState :=
  let lutIndex := side ||| corner
  let altIndex := side ||| (corner &&& effective)
  if st.lut altIndex ≠ -1 then
    -- Already in `PRE` table: `lut[lutIndex] = lut[altIndex]`.
    { st with lut := fun i => if i = lutIndex then st.lut altIndex else st.lut i }
  else
    -- New combination: `lut[lutIndex] = lut[altIndex] = preIndex`.
    let preIndex : Int := st.comb.length
    { comb := st.comb ++ [altIndex],
      lut := fun i => if i = lutIndex ∨ i = altIndex then preIndex else st.lut i }

/-- The inner-loop corner sequence `for (var corner = 16; corner < 256; corner += 16)`. -/
def cornerSeq : List Nat :=
  [16, 32, 48, 64, 80, 96, 112, 128, 144, 160, 176, 192, 208, 224, 240]

structure TransitionData where
  PRE : List Nat
  LUT : Nat → Int

def makeTransitionData (sides : List Nat) : TransitionData :=
  let st :=
    (List.range sides.length).foldl
      (fun st side => cornerSeq.foldl (transStep (sides.getD side 0) side) st)
      { comb := [], lut := fun _ => -1 }
  { PRE := st.comb, LUT := st.lut }

/-- The 16-entry effective-corner side table passed to `makeTransitionData`
for `TerrainTransitions` (webciv-render.js lines 104-121). -/
def terrainSides : List Nat :=
  [EdgeFlags.Corners,
   EdgeFlags.BottomLeft ||| EdgeFlags.BottomRight,
   EdgeFlags.TopLeft ||| EdgeFlags.BottomLeft,
   EdgeFlags.BottomLeft,
   EdgeFlags.TopLeft ||| EdgeFlags.TopRight,
   EdgeFlags.None,
   EdgeFlags.TopLeft,
   EdgeFlags.None,
   EdgeFlags.TopRight ||| EdgeFlags.BottomRight,
   EdgeFlags.BottomRight,
   EdgeFlags.None,
   EdgeFlags.None,
   EdgeFlags.TopRight,
   EdgeFlags.None,
   EdgeFlags.None,
   EdgeFlags.None]

/-- The 16-entry effective-corner side table passed to `makeTransitionData`
for `TerritoryTransitions` (webciv-render.js lines 124-141). -/
def territorySides : List Nat :=
  [EdgeFlags.None,
   EdgeFlags.None,
   EdgeFlags.None,
   EdgeFlags.TopRight,
   EdgeFlags.None,
   EdgeFlags.None,
   EdgeFlags.BottomRight,
   EdgeFlags.TopRight ||| EdgeFlags.BottomRight,
   EdgeFlags.None,
   EdgeFlags.TopLeft,
   EdgeFlags.None,
   EdgeFlags.TopLeft ||| EdgeFlags.TopRight,
   EdgeFlags.BottomLeft,
   EdgeFlags.TopLeft ||| EdgeFlags.BottomLeft,
   EdgeFlags.BottomLeft ||| EdgeFlags.BottomRight,
   EdgeFlags.Corners]

def TerrainTransitions : TransitionData := makeTransitionData terrainSides

def TerritoryTransitions : TransitionData := makeTransitionData territorySides

/-! ## Renderer dirty grid (webciv-render.js lines 886-890, 1087-1265)

The two dirty bitsets are `Int32Array`s of `(gridW*gridH + 31) >>> 5` words;
they are embedded as lists of 32-bit words (`Nat < 2^32`, holding the words'
bit patterns — the sign of the stored int32 is representation only, all
accesses are single-bit `|=` / `&` operations). -/

def kGridShift : Nat := 3

def kGridSize : Nat := 1 <<< kGridShift

/-- `GameUtils.repeat(x, y)` (webciv-core): wraps `x` into `[0, y)` for
`y > 0`.  JS `%` truncates toward zero (`Int.tmod`); `Math.floor` of an
integer is the identity.  The `(x < 0 && (x += y) < 0) || (x >= y && ...)`
short-circuit evaluates the second disjunct on the already incremented `x`,
but `x + y ≥ y` is impossible there (it would need `x ≥ 0`), so the two
branches below are exhaustive and faithful. -/
def jsRepeat (x y : Int) : Int :=
  if x < 0 then
    let x1 := x + y
    if x1 < 0 then
      let x2 := Int.tmod x1 y
      if x2 < 0 then x2 + y else x2
    else x1
  else if x ≥ y then
    let x1 := x - y
    if x1 ≥ y then
      let x2 := Int.tmod x1 y
      if x2 < 0 then x2 + y else x2
    else x1
  else x

/-- The renderer state relevant to dirty tracking: the attached map's
dimensions (the renderer reads `this.map.w`/`this.map.h` live), the coarse
grid dimensions, the two dirty bitsets and the fog player id. -/
structure RenderState where
  mapW : Nat
  mapH : Nat
  gridW : Nat
  gridH : Nat
  tilesDirty : List Nat
  blocksDirty : List Nat
  playerId : Int
deriving DecidableEq

/-- One `dirty[idx] |= bit` store with `idx = off >> 5` and
`bit = 1 << (off & 31)`.  JS `>>` on an int32 is floor division (= `Int.ediv`
for the positive divisor 32) and `off & 31` is the Euclidean remainder; an
out-of-range typed-array index turns the store into a no-op (negative index
via the guard, index past the end via `List.set`). -/
def setDirtyBit (arr : List Nat) (off : Int) : List Nat :=
  let idx := off / 32
  let bit := 1 <<< (off % 32).toNat
  if idx < 0 then arr
  else arr.set idx.toNat (arr.getD idx.toNat 0 ||| bit)

/-- The wrap-once adjustment `v >= n ? v - n : v` of the cell loops. -/
def wrapCell (v n : Int) : Int := if v ≥ n then v - n else v

/-- Inclusive integer range `[a, ..., b]` (empty when `b < a`): the iteration
sequence of `for (var g = a; g <= b; g++)`. -/
def intRangeIncl (a b : Int) : List Int :=
  (List.range (b + 1 - a).toNat).map fun i : Nat => a + (i : Int)

/-- The sequence of bit offsets touched by the two nested cell loops of
`invalidateRect` (outer `gy` with wrapped `base`, inner `gx`), in iteration
order. -/
def gridOffs (gw gh dx0 dx1 dy0 dy1 : Int) : List Int :=
  (intRangeIncl dy0 dy1).flatMap fun gy =>
    (intRangeIncl dx0 dx1).map fun gx =>
      wrapCell gy gh * gw + wrapCell gx gw

/-- The boundary normalization `if (v < 0 || v >= m) v = GameUtils.repeat(v, m)`. -/
def normLow (v : Int) (m : Nat) : Int :=
  if v < 0 ∨ v ≥ (m : Int) then jsRepeat v m else v

/-- The offsets whose bits `invalidateRect(rx, ry, rw, rh)` ORs into both
bitsets: the rectangle is expanded by one tile on each side, its top-left
corner normalized through wraparound, mapped to inclusive coarse-cell bounds
(`>> kGridShift`), and traversed with `wrapCell`. -/
def rectOffs (mw mh gw gh : Nat) (rx ry rw rh : Int) : List Int :=
  let mx0 := normLow (rx - 1) mw
  let my0 := normLow (ry - 1) mh
  let mx1 := mx0 + rw + 1
  let my1 := my0 + rh + 1
  gridOffs gw gh (mx0 / 8) (mx1 / 8) (my0 / 8) (my1 / 8)

/-- `Renderer.invalidateRect` (webciv-render.js lines 1119-1160).  Each loop
iteration ORs the same bit into the two independent bitsets; the interleaved
stores are embedded as one fold per bitset over the same offset sequence. -/
def invalidateRect (st : RenderState) (rx ry rw rh : Int) : RenderState :=
  let offs := rectOffs st.mapW st.mapH st.gridW st.gridH rx ry rw rh
  { st with tilesDirty := offs.foldl setDirtyBit st.tilesDirty,
            blocksDirty := offs.foldl setDirtyBit st.blocksDirty }

/-- `Renderer.invalidateTile` (lines 1115-1117). -/
def invalidateTile (st : RenderState) (mx my : Int) : RenderState :=
  invalidateRect st mx my 1 1

/-- `Renderer.invalidateAll` (lines 1162-1165). -/
def invalidateAll (st : RenderState) : RenderState :=
  invalidateRect st 0 0 st.mapW st.mapH

/-- `Renderer.$createGrid` (lines 1167-1254), restricted to the grid
dimensions and the two dirty bitsets (the `$grid`/`$blocks` canvas pooling
only recycles browser objects).  An unchanged grid returns early; otherwise
both bitsets are (re)allocated at the new size and filled with
`0xFFFFFFFF`. -/
def createGrid (st : RenderState) (gridW gridH : Nat) : RenderState :=
  if st.gridW = gridW ∧ st.gridH = gridH then st
  else
    let gridSize := gridW * gridH
    let gridBitArraySize := (gridSize + 31) >>> 5
    { st with gridW := gridW, gridH := gridH,
              tilesDirty := List.replicate gridBitArraySize 0xFFFFFFFF,
              blocksDirty := List.replicate gridBitArraySize 0xFFFFFFFF }

/-- `Renderer.$deleteGrid` (lines 1256-1265). -/
def deleteGrid (st : RenderState) : RenderState :=
  { st with gridW := 0, gridH := 0, tilesDirty := [], blocksDirty := [] }

/-- `Renderer.$onMapResize` (lines 1087-1113) with the attached map resized
to `w × h` (the world pixel rectangle is not modeled).  `Math.floor((w +
kGridSize - 1) / kGridSize)` is natural-number division. -/
def onMapResize (st : RenderState) (w h : Nat) : RenderState :=
  if w ≠ 0 ∧ h ≠ 0 then
    let gridW := (w + kGridSize - 1) / kGridSize
    let gridH := (h + kGridSize - 1) / kGridSize
    createGrid { st with mapW := w, mapH := h } gridW gridH
  else
    deleteGrid { st with mapW := w, mapH := h }

/-- The `playerId` setter (lines 988-993): a change of value invalidates the
whole map, assigning the current value does nothing. -/
def setPlayerId (st : RenderState) (id : Int) : RenderState :=
  if st.playerId ≠ id then invalidateAll { st with playerId := id } else st

/-- Bit `off` of a bit-packed dirty array (word `off / 32`, bit `off % 32`). -/
def getBit (arr : List Nat) (off : Nat) : Bool :=
  (arr.getD (off / 32) 0).testBit (off % 32)

/-! ## Per-tile recomputation fragments (`Renderer.$updateMapTile`) -/

/-- The authoritative per-tile data the modeled fragments of `$updateMapTile`
read (terrain id and modifier bitfield). -/
structure GameTileData where
  id : Nat
  modifiers : Nat
deriving DecidableEq

/-- River-edge computation (webciv-render.js lines 1536-1553): for ocean tiles
or tiles carrying the river modifier, a 4-bit cardinal mask of the neighbors
(top center, middle left, bottom center, middle right) that carry the river
modifier; a non-ocean tile additionally ORs in the cardinal neighbors that are
ocean (rivers render their mouth into the sea). -/
def computeRiverEdges (id modifiers : Nat) (tc ml bc mr : GameTileData) : Nat :=
  if id = TerrainType.Ocean ∨ modifiers &&& TerrainModifier.kRiver ≠ 0 then
    let riverEdges :=
      (if tc.modifiers &&& TerrainModifier.kRiver ≠ 0 then EdgeFlags.Top else 0) |||
      (if ml.modifiers &&& TerrainModifier.kRiver ≠ 0 then EdgeFlags.Left else 0) |||
      (if bc.modifiers &&& TerrainModifier.kRiver ≠ 0 then EdgeFlags.Bottom else 0) |||
      (if mr.modifiers &&& TerrainModifier.kRiver ≠ 0 then EdgeFlags.Right else 0)
    if id ≠ TerrainType.Ocean then
      riverEdges |||
        ((if tc.id = TerrainType.Ocean then EdgeFlags.Top else 0) |||
         (if ml.id = TerrainType.Ocean then EdgeFlags.Left else 0) |||
         (if bc.id = TerrainType.Ocean then EdgeFlags.Bottom else 0) |||
         (if mr.id = TerrainType.Ocean then EdgeFlags.Right else 0))
    else riverEdges
  else 0

/-- `GameMap._flipX` / `_flipY` (webciv-core): wrap a coordinate into
`[0, n)`.  The default map has `flipX = flipY = true`, so `normX`/`normY` are
these functions.  JS `%` truncates toward zero (`Int.tmod`). -/
def flipCoord (v : Int) (n : Nat) : Nat :=
  if v < 0 ∨ v ≥ (n : Int) then
    let m := Int.tmod v n
    (if m < 0 then m + n else m).toNat
  else v.toNat

/-- One bit of a player's `uncovered` bitset as `$updateMapTile` reads it:
`bits[pos >>> 5] & (1 << (pos & 0x1F))`, truthiness = nonzero. -/
def uncoveredBit (bits : List Nat) (pos : Nat) : Bool :=
  bits.getD (pos >>> 5) 0 &&& (1 <<< (pos &&& 0x1F)) ≠ 0

/-- Cover-edge computation (webciv-render.js lines 1413-1450): with no fog
player selected (`playerId = -1`) the tile's `coverEdges` is 0; otherwise the
fully-fogged sentinel 256 when the tile itself is not uncovered, else an
8-bit mask of the not-uncovered neighbors. -/
def computeCoverEdges (playerId : Int) (uncovered : List Nat) (w h : Nat) (x y : Nat) : Nat :=
  let xPrev := flipCoord ((x : Int) - 1) w
  let yPrev := flipCoord ((y : Int) - 1) h
  let xNext := flipCoord ((x : Int) + 1) w
  let yNext := flipCoord ((y : Int) + 1) h
  let tlIndex := yPrev * w + xPrev
  let tcIndex := yPrev * w + x
  let trIndex := yPrev * w + xNext
  let mlIndex := y * w + xPrev
  let mrIndex := y * w + xNext
  let blIndex := yNext * w + xPrev
  let bcIndex := yNext * w + x
  let brIndex := yNext * w + xNext
  if playerId ≠ -1 then
    let bpos := y * w + x
    if ¬ uncoveredBit uncovered bpos then 256
    else
      (if ¬ uncoveredBit uncovered tlIndex then EdgeFlags.TopLeft else 0) |||
      (if ¬ uncoveredBit uncovered tcIndex then EdgeFlags.Top else 0) |||
      (if ¬ uncoveredBit uncovered trIndex then EdgeFlags.TopRight else 0) |||
      (if ¬ uncoveredBit uncovered mlIndex then EdgeFlags.Left else 0) |||
      (if ¬ uncoveredBit uncovered mrIndex then EdgeFlags.Right else 0) |||
      (if ¬ uncoveredBit uncovered blIndex then EdgeFlags.BottomLeft else 0) |||
      (if ¬ uncoveredBit uncovered bcIndex then EdgeFlags.Bottom else 0) |||
      (if ¬ uncoveredBit uncovered brIndex then EdgeFlags.BottomRight else 0)
  else 0

/-- Example state: a renderer attached to an 8×8 map (one coarse cell, one
bitset word) with both bitsets all-clear. -/
def smallMapState : RenderState :=
  { mapW := 8, mapH := 8, gridW := 1, gridH := 1,
    tilesDirty := [0], blocksDirty := [0], playerId := -1 }

/-- Example state: a renderer attached to a 30×30 map (4×4 coarse cells, one
bitset word) with both bitsets all-clear. -/
def resizeExampleState : RenderState :=
  { mapW := 30, mapH := 30, gridW := 4, gridH := 4,
    tilesDirty := [0], blocksDirty := [0], playerId := -1 }

end WebCiv

/-! ## Claim theorems -/

open WebCiv

/-- C9: for every 8-bit road edge mask, `simplifyRoadEdges` clears a diagonal
(corner) bit exactly when that diagonal bit and both of its two adjacent side
bits are set in the input, leaves all other corner bits unchanged, and returns
the four side bits unchanged.  (Bits: Top=0, Right=1, Bottom=2, Left=3,
TopRight=4, BottomRight=5, BottomLeft=6, TopLeft=7.) -/
theorem c9_simplifyRoadEdges_spec (e : Nat) (he : e < 256) :
    (simplifyRoadEdges e) &&& EdgeFlags.Sides = e &&& EdgeFlags.Sides ∧
    (simplifyRoadEdges e).testBit 4 = (e.testBit 4 && !(e.testBit 0 && e.testBit 1)) ∧
    (simplifyRoadEdges e).testBit 5 = (e.testBit 5 && !(e.testBit 2 && e.testBit 1)) ∧
    (simplifyRoadEdges e).testBit 6 = (e.testBit 6 && !(e.testBit 2 && e.testBit 3)) ∧
    (simplifyRoadEdges e).testBit 7 = (e.testBit 7 && !(e.testBit 0 && e.testBit 3)) := by
  revert he
  revert e
  set_option maxRecDepth 4096 in decide

/-- Witness for C9 at the all-edges mask `0xFF`. -/
theorem c9_simplifyRoadEdges_spec_witness :
    (255 : Nat) < 256 ∧ (simplifyRoadEdges 255) &&& EdgeFlags.Sides = 255 &&& EdgeFlags.Sides :=
  ⟨by decide, (c9_simplifyRoadEdges_spec 255 (by decide)).1⟩

/-! ### Generic invariants of `makeTransitionData` (for C3)

Every index the builder touches while processing side combination `s` is of
the form `s ||| x` where `x` is a corner-bit pattern (`x &&& 15 = 0`,
`x ≤ 240`); such indices decompose uniquely into their side part (`&&& 15`)
and corner part (`&&& 240`).  The inner loop processes corners in increasing
order and only ever overwrites entries still holding `-1`, which yields the
dedup invariant `lut[s|c] = lut[s|(c & effective)]`. -/

theorem lor_and_15_bounded :
    ∀ s : Nat, s < 16 → ∀ x : Nat, x < 241 → x &&& 15 = 0 → (s ||| x) &&& 15 = s := by
  set_option maxRecDepth 8192 in decide

theorem lor_and_240_bounded :
    ∀ s : Nat, s < 16 → ∀ x : Nat, x < 241 → x &&& 15 = 0 → (s ||| x) &&& 240 = x := by
  set_option maxRecDepth 8192 in decide

theorem lor_and_15 (s x : Nat) (hs : s < 16) (hx : x &&& 15 = 0) (hx2 : x ≤ 240) :
    (s ||| x) &&& 15 = s :=
  lor_and_15_bounded s hs x (by omega) hx

theorem lor_and_240 (s x : Nat) (hs : s < 16) (hx : x &&& 15 = 0) (hx2 : x ≤ 240) :
    (s ||| x) &&& 240 = x :=
  lor_and_240_bounded s hs x (by omega) hx

theorem side_corner_recompose (r : Nat) (h : r < 256) : (r &&& 15) ||| (r &&& 240) = r := by
  revert h
  revert r
  set_option maxRecDepth 4096 in decide

theorem corner_and_15 (c eff : Nat) (h : c &&& 15 = 0) : (c &&& eff) &&& 15 = 0 := by
  rw [Nat.land_assoc, Nat.land_comm eff 15, ← Nat.land_assoc, h, Nat.zero_and]

theorem corner_and_le (c eff : Nat) : c &&& eff ≤ c := Nat.and_le_left

/-- Value of the `lut` array after one builder iteration. -/
theorem transStep_lut (eff s : Nat) (st : TransState) (c i : Nat) :
    (transStep eff s st c).lut i =
      if st.lut (s ||| (c &&& eff)) ≠ -1 then
        if i = s ||| c then st.lut (s ||| (c &&& eff)) else st.lut i
      else if i = s ||| c ∨ i = s ||| (c &&& eff) then (st.comb.length : Int)
      else st.lut i := by
  simp only [transStep]
  split <;> rfl

/-- One builder iteration never touches a `lut` entry whose side part differs
from the side combination being processed. -/
theorem transStep_untouched (eff s : Nat) (hs : s < 16) (c : Nat)
    (hc : c &&& 15 = 0) (hc2 : c ≤ 240) (st : TransState) (i : Nat) (hi : i &&& 15 ≠ s) :
    (transStep eff s st c).lut i = st.lut i := by
  have hne1 : i ≠ s ||| c := fun h => hi (by rw [h]; exact lor_and_15 s c hs hc hc2)
  have hne2 : i ≠ s ||| (c &&& eff) := fun h => hi (by
    rw [h]
    exact lor_and_15 s (c &&& eff) hs (corner_and_15 c eff hc)
      (le_trans (corner_and_le c eff) hc2))
  by_cases hcond : st.lut (s ||| (c &&& eff)) ≠ -1
  · rw [transStep_lut, if_pos hcond, if_neg hne1]
  · rw [transStep_lut, if_neg hcond, if_neg (by rintro (h | h); exacts [hne1 h, hne2 h])]

/-- The inner corner loop for side `s` never touches a `lut` entry whose side
part differs from `s`. -/
theorem sideFold_untouched (eff s : Nat) (hs : s < 16) :
    ∀ (cs : List Nat), (∀ c ∈ cs, c &&& 15 = 0 ∧ c ≤ 240) →
    ∀ (st : TransState) (i : Nat), i &&& 15 ≠ s →
      (cs.foldl (transStep eff s) st).lut i = st.lut i := by
  intro cs
  induction cs with
  | nil => intro _ st i _; rfl
  | cons c t ih =>
    intro hcs st i hi
    have hc := hcs c (by simp)
    rw [List.foldl_cons, ih (fun c' h => hcs c' (by simp [h])) _ i hi,
      transStep_untouched eff s hs c hc.1 hc.2 st i hi]

/-- Main inner-loop invariant: processing an ascending list of fresh corner
combinations (all above the processed bound `b`) preserves every already
resolved `lut` entry and establishes `lut[s|c] = lut[s|(c & effective)]` for
every processed corner combination `c`. -/
theorem sideFold_main (eff s : Nat) (hs : s < 16) :
    ∀ (cs : List Nat) (b : Nat) (st : TransState),
      (∀ c ∈ cs, (c &&& 15 = 0 ∧ c ≤ 240) ∧ b < c) →
      List.Pairwise (· < ·) cs →
      (∀ x, x &&& 15 = 0 → x ≤ 240 → b < x → st.lut (s ||| x) = -1) →
      (∀ i, st.lut i ≠ -1 → (cs.foldl (transStep eff s) st).lut i = st.lut i) ∧
      (∀ c ∈ cs, (cs.foldl (transStep eff s) st).lut (s ||| c) =
                 (cs.foldl (transStep eff s) st).lut (s ||| (c &&& eff))) := by
  intro cs
  induction cs with
  | nil =>
    intro b st _ _ _
    exact ⟨fun i _ => rfl, fun c hc => absurd hc (List.not_mem_nil c)⟩
  | cons c t ih =>
    intro b st hcs hpair hfresh
    obtain ⟨⟨hc15, hc240⟩, hbc⟩ := hcs c (by simp)
    have hcpos : 0 < c := Nat.pos_of_ne_zero (by rintro rfl; omega)
    have ha15 : (c &&& eff) &&& 15 = 0 := corner_and_15 c eff hc15
    have ha240 : c &&& eff ≤ 240 := le_trans (corner_and_le c eff) hc240
    have hfc : st.lut (s ||| c) = -1 := hfresh c hc15 hc240 hbc
    have hlen : ((st.comb.length : Int)) ≠ -1 := by
      have := Int.natCast_nonneg st.comb.length
      omega
    -- Effects of the head iteration.
    have e1 : (transStep eff s st c).lut (s ||| c) = (transStep eff s st c).lut (s ||| (c &&& eff)) ∧
              (transStep eff s st c).lut (s ||| c) ≠ -1 := by
      by_cases hcond : st.lut (s ||| (c &&& eff)) ≠ -1
      · constructor
        · rw [transStep_lut, if_pos hcond, if_pos rfl, transStep_lut, if_pos hcond, ite_self]
        · rw [transStep_lut, if_pos hcond, if_pos rfl]
          exact hcond
      · constructor
        · rw [transStep_lut, if_neg hcond, if_pos (Or.inl rfl), transStep_lut, if_neg hcond,
            if_pos (Or.inr rfl)]
        · rw [transStep_lut, if_neg hcond, if_pos (Or.inl rfl)]
          exact hlen
    have e2 : ∀ x, x &&& 15 = 0 → x ≤ 240 → c < x →
        (transStep eff s st c).lut (s ||| x) = -1 := by
      intro x hx15 hx240 hcx
      have hxc : s ||| x ≠ s ||| c := by
        intro h
        have hx' := lor_and_240 s x hs hx15 hx240
        rw [h, lor_and_240 s c hs hc15 hc240] at hx'
        omega
      have hxa : s ||| x ≠ s ||| (c &&& eff) := by
        intro h
        have hx' := lor_and_240 s x hs hx15 hx240
        rw [h, lor_and_240 s (c &&& eff) hs ha15 ha240] at hx'
        have := corner_and_le c eff
        omega
      by_cases hcond : st.lut (s ||| (c &&& eff)) ≠ -1
      · rw [transStep_lut, if_pos hcond, if_neg hxc]
        exact hfresh x hx15 hx240 (lt_trans hbc hcx)
      · rw [transStep_lut, if_neg hcond, if_neg (by rintro (h | h); exacts [hxc h, hxa h])]
        exact hfresh x hx15 hx240 (lt_trans hbc hcx)
    have e3 : ∀ i, st.lut i ≠ -1 → (transStep eff s st c).lut i = st.lut i := by
      intro i hi
      have h1 : i ≠ s ||| c := by rintro rfl; exact hi hfc
      by_cases hcond : st.lut (s ||| (c &&& eff)) ≠ -1
      · rw [transStep_lut, if_pos hcond, if_neg h1]
      · have h2 : i ≠ s ||| (c &&& eff) := by rintro rfl; exact hi (by simpa using hcond)
        rw [transStep_lut, if_neg hcond, if_neg (by rintro (h | h); exacts [h1 h, h2 h])]
    have ht : ∀ c' ∈ t, (c' &&& 15 = 0 ∧ c' ≤ 240) ∧ c < c' := by
      intro c' hc'
      exact ⟨(hcs c' (by simp [hc'])).1, (List.pairwise_cons.mp hpair).1 c' hc'⟩
    obtain ⟨P1, P3⟩ := ih c (transStep eff s st c) ht (List.pairwise_cons.mp hpair).2 e2
    rw [List.foldl_cons]
    refine ⟨?_, ?_⟩
    · intro i hi
      rw [P1 i (by rw [e3 i hi]; exact hi), e3 i hi]
    · intro c' hc'
      rcases List.mem_cons.mp hc' with rfl | hmem
      · have hA : (transStep eff s st c').lut (s ||| (c' &&& eff)) ≠ -1 := by
          rw [← e1.1]; exact e1.2
        rw [P1 _ e1.2, P1 _ hA]
        exact e1.1
      · exact P3 c' hmem

/-- The outer loop never touches a `lut` entry whose side part is none of the
side combinations it processes. -/
theorem outerFold_untouched (sides : List Nat) :
    ∀ (ss : List Nat), (∀ s' ∈ ss, s' < 16) →
    ∀ (st : TransState) (i : Nat), (∀ s' ∈ ss, i &&& 15 ≠ s') →
      ((ss.foldl (fun st side => cornerSeq.foldl (transStep (sides.getD side 0) side) st) st).lut i
        = st.lut i) := by
  intro ss
  induction ss with
  | nil => intro _ st i _; rfl
  | cons s t ih =>
    intro hss st i hi
    rw [List.foldl_cons, ih (fun s' h => hss s' (by simp [h])) _ i (fun s' h => hi s' (by simp [h])),
      sideFold_untouched (sides.getD s 0) s (hss s (by simp)) cornerSeq (by decide) st i
        (hi s (by simp))]

/-- Main outer-loop invariant: after processing a duplicate-free list of side
combinations whose `lut` rows start fully unresolved, the dedup equality holds
for every processed side combination and every corner combination. -/
theorem outerFold_main (sides : List Nat) :
    ∀ (ss : List Nat), ss.Nodup → (∀ s' ∈ ss, s' < 16) →
    ∀ (st : TransState),
      (∀ s' ∈ ss, ∀ x, x &&& 15 = 0 → x ≤ 240 → 0 < x → st.lut (s' ||| x) = -1) →
      ∀ s' ∈ ss, ∀ c ∈ cornerSeq,
        ((ss.foldl (fun st side => cornerSeq.foldl (transStep (sides.getD side 0) side) st) st).lut
            (s' ||| c)
          = (ss.foldl (fun st side => cornerSeq.foldl (transStep (sides.getD side 0) side) st)
              st).lut (s' ||| (c &&& sides.getD s' 0))) := by
  intro ss
  induction ss with
  | nil => intro _ _ st _ s' hs'; exact absurd hs' (List.not_mem_nil s')
  | cons s t ih =>
    intro hnodup hss st hfresh s' hs' c hc
    have hs16 : s < 16 := hss s (by simp)
    have hcorner : ∀ c' ∈ cornerSeq, (c' &&& 15 = 0 ∧ c' ≤ 240) ∧ 0 < c' := by decide
    have hpair : List.Pairwise (· < ·) cornerSeq := by decide
    obtain ⟨hcc, _⟩ := hcorner c hc
    rw [List.foldl_cons]
    rcases List.mem_cons.mp hs' with rfl | hmem
    · -- The head side: equality established by the inner loop and preserved by the tail.
      obtain ⟨_, P3⟩ := sideFold_main (sides.getD s' 0) s' hs16 cornerSeq 0 st hcorner hpair
        (fun x hx15 hx240 hx0 => hfresh s' (by simp) x hx15 hx240 hx0)
      have huntouched : ∀ j, j &&& 15 = s' →
          ((t.foldl (fun st side => cornerSeq.foldl (transStep (sides.getD side 0) side) st)
              (cornerSeq.foldl (transStep (sides.getD s' 0) s') st)).lut j
            = (cornerSeq.foldl (transStep (sides.getD s' 0) s') st).lut j) := by
        intro j hj
        refine outerFold_untouched sides t (fun s'' h => hss s'' (by simp [h])) _ j ?_
        intro s'' hs''
        rw [hj]
        intro h
        exact (List.nodup_cons.mp hnodup).1 (h ▸ hs'')
      rw [huntouched _ (lor_and_15 s' c hs16 hcc.1 hcc.2),
        huntouched _ (lor_and_15 s' _ hs16 (corner_and_15 c _ hcc.1)
          (le_trans (corner_and_le c _) hcc.2))]
      exact P3 c hc
    · -- A tail side: its rows are still fully unresolved after the head side.
      refine ih (List.nodup_cons.mp hnodup).2 (fun s'' h => hss s'' (by simp [h])) _ ?_ s' hmem c hc
      intro s'' hs'' x hx15 hx240 hx0
      have hne : s'' ≠ s := by
        intro h
        exact (List.nodup_cons.mp hnodup).1 (h ▸ hs'')
      rw [sideFold_untouched (sides.getD s 0) s hs16 cornerSeq (by decide) st _
        (by rw [lor_and_15 s'' x (hss s'' (by simp [hs''])) hx15 hx240]; exact hne)]
      exact hfresh s'' (by simp [hs'']) x hx15 hx240 hx0

/-- Dedup equality at the `makeTransitionData` level. -/
theorem makeTransitionData_lut_eq (sides : List Nat) (h16 : sides.length = 16)
    (s c : Nat) (hs : s < 16) (hc : c ∈ cornerSeq) :
    (makeTransitionData sides).LUT (s ||| c) =
    (makeTransitionData sides).LUT (s ||| (c &&& sides.getD s 0)) := by
  have := outerFold_main sides (List.range sides.length) (List.nodup_range _)
    (fun s' h => by rw [h16] at h; exact List.mem_range.mp h)
    { comb := [], lut := fun _ => -1 }
    (fun _ _ _ _ _ _ => rfl)
    s (by rw [h16]; exact List.mem_range.mpr hs) c hc
  exact this

theorem mem_cornerSeq (x : Nat) (h1 : x &&& 15 = 0) (h2 : 0 < x) (h3 : x ≤ 240) :
    x ∈ cornerSeq := by
  have hm : x % 16 = 0 := by
    have h4 := Nat.and_pow_two_sub_one_eq_mod x 4
    norm_num at h4
    omega
  have hx : x = 16 ∨ x = 32 ∨ x = 48 ∨ x = 64 ∨ x = 80 ∨ x = 96 ∨ x = 112 ∨ x = 128 ∨
      x = 144 ∨ x = 160 ∨ x = 176 ∨ x = 192 ∨ x = 208 ∨ x = 224 ∨ x = 240 := by omega
  rcases hx with rfl|rfl|rfl|rfl|rfl|rfl|rfl|rfl|rfl|rfl|rfl|rfl|rfl|rfl|rfl <;> decide

/-- C3: for every transition table built by `makeTransitionData` from a
16-entry effective-corner side table and all raw 8-bit masks `r1`, `r2`: if
`r1` and `r2` have the same 4 side bits `s` and
`cornerBits(r1) & effective(s) = cornerBits(r2) & effective(s)`, then
`LUT[r1] = LUT[r2]`. -/
theorem c3_lut_dedup (sides : List Nat) (h16 : sides.length = 16)
    (r1 r2 : Nat) (h1 : r1 < 256) (h2 : r2 < 256)
    (hside : r1 &&& 15 = r2 &&& 15)
    (hcorner : (r1 &&& 240) &&& sides.getD (r1 &&& 15) 0
             = (r2 &&& 240) &&& sides.getD (r1 &&& 15) 0) :
    (makeTransitionData sides).LUT r1 = (makeTransitionData sides).LUT r2 := by
  have hs16 : r1 &&& 15 < 16 := lt_of_le_of_lt Nat.and_le_right (by norm_num)
  have hkey : ∀ c : Nat, c &&& 15 = 0 → c ≤ 240 →
      (makeTransitionData sides).LUT ((r1 &&& 15) ||| c) =
      (makeTransitionData sides).LUT ((r1 &&& 15) ||| (c &&& sides.getD (r1 &&& 15) 0)) := by
    intro c hca hcb
    rcases Nat.eq_zero_or_pos c with rfl | hpos
    · rw [Nat.zero_and]
    · exact makeTransitionData_lut_eq sides h16 (r1 &&& 15) c hs16
        (mem_cornerSeq c hca hpos hcb)
  have hc15a : (r1 &&& 240) &&& 15 = 0 := by
    rw [Nat.land_assoc, (by decide : (240 : Nat) &&& 15 = 0), Nat.and_zero]
  have hc15b : (r2 &&& 240) &&& 15 = 0 := by
    rw [Nat.land_assoc, (by decide : (240 : Nat) &&& 15 = 0), Nat.and_zero]
  calc (makeTransitionData sides).LUT r1
      = (makeTransitionData sides).LUT ((r1 &&& 15) ||| (r1 &&& 240)) := by
        rw [side_corner_recompose r1 h1]
    _ = (makeTransitionData sides).LUT
          ((r1 &&& 15) ||| ((r1 &&& 240) &&& sides.getD (r1 &&& 15) 0)) :=
        hkey (r1 &&& 240) hc15a Nat.and_le_right
    _ = (makeTransitionData sides).LUT
          ((r1 &&& 15) ||| ((r2 &&& 240) &&& sides.getD (r1 &&& 15) 0)) := by rw [hcorner]
    _ = (makeTransitionData sides).LUT ((r1 &&& 15) ||| (r2 &&& 240)) :=
        (hkey (r2 &&& 240) hc15b Nat.and_le_right).symm
    _ = (makeTransitionData sides).LUT r2 := by
        rw [hside, side_corner_recompose r2 h2]

/-- Witness for C3 on the terrain table at raw masks `0x13` and `0x23`
(side combo 3, corners TopRight vs BottomRight, both wiped by
`effective(3) = BottomLeft`). -/
theorem c3_lut_dedup_witness :
    terrainSides.length = 16 ∧ (19 : Nat) < 256 ∧ (35 : Nat) < 256 ∧
    (19 : Nat) &&& 15 = 35 &&& 15 ∧
    ((19 : Nat) &&& 240) &&& terrainSides.getD (19 &&& 15) 0
      = ((35 : Nat) &&& 240) &&& terrainSides.getD (19 &&& 15) 0 ∧
    (makeTransitionData terrainSides).LUT 19 = (makeTransitionData terrainSides).LUT 35 :=
  ⟨by decide, by decide, by decide, by decide, by decide,
    c3_lut_dedup terrainSides (by decide) 19 35 (by decide) (by decide) (by decide) (by decide)⟩

/-! ### Dirty-bitset machinery (for C4-C7)

`invalidateRect` only ORs single bits into the two word arrays, so its effect
on a word is characterized bit-by-bit: a bit is set afterwards iff it was set
before or some visited offset targets it.  Everything below is phrased through
that characterization. -/

theorem getD_set_self {α : Type} (l : List α) (i : Nat) (a d : α) (h : i < l.length) :
    (l.set i a).getD i d = a := by
  simp [List.getD_eq_getElem?_getD, List.getElem?_set_self h]

theorem getD_set_ne {α : Type} (l : List α) (i j : Nat) (a d : α) (h : i ≠ j) :
    (l.set i a).getD j d = l.getD j d := by
  simp [List.getD_eq_getElem?_getD, List.getElem?_set_ne h]

theorem setDirtyBit_length (arr : List Nat) (off : Int) :
    (setDirtyBit arr off).length = arr.length := by
  simp only [setDirtyBit]
  split
  · rfl
  · simp

theorem setDirtyBit_testBit (arr : List Nat) (off : Int) (i j : Nat) (hi : i < arr.length) :
    (((setDirtyBit arr off).getD i 0).testBit j = true) ↔
      ((arr.getD i 0).testBit j = true ∨
        (0 ≤ off ∧ off / 32 = (i : Int) ∧ (off % 32).toNat = j)) := by
  unfold setDirtyBit
  by_cases hneg : off / 32 < 0
  · rw [if_pos hneg]
    constructor
    · exact Or.inl
    · rintro (h | ⟨h0, hdiv, _⟩)
      · exact h
      · omega
  · rw [if_neg hneg]
    by_cases heq : (off / 32).toNat = i
    · subst heq
      rw [getD_set_self _ _ _ _ (by exact hi)]
      have hbit : ((1 <<< (off % 32).toNat).testBit j = true) ↔
          ((off % 32).toNat = j) := by
        rw [Nat.shiftLeft_eq, one_mul, Nat.testBit_two_pow]
        simp
      rw [Nat.testBit_or]
      simp only [Bool.or_eq_true]
      rw [hbit]
      constructor
      · rintro (h | h)
        · exact Or.inl h
        · exact Or.inr ⟨by omega, by omega, h⟩
      · rintro (h | ⟨h0, hdiv, hmod⟩)
        · exact Or.inl h
        · exact Or.inr hmod
    · rw [getD_set_ne _ _ _ _ _ heq]
      constructor
      · exact Or.inl
      · rintro (h | ⟨h0, hdiv, hmod⟩)
        · exact h
        · exact absurd (by omega : (off / 32).toNat = i) heq

theorem foldl_setDirtyBit_length (offs : List Int) (arr : List Nat) :
    (offs.foldl setDirtyBit arr).length = arr.length := by
  induction offs generalizing arr with
  | nil => rfl
  | cons o t ih => rw [List.foldl_cons, ih, setDirtyBit_length]

theorem foldl_setDirtyBit_testBit (offs : List Int) (arr : List Nat) (i j : Nat)
    (hi : i < arr.length) :
    (((offs.foldl setDirtyBit arr).getD i 0).testBit j = true) ↔
      ((arr.getD i 0).testBit j = true ∨
        ∃ off ∈ offs, 0 ≤ off ∧ off / 32 = (i : Int) ∧ (off % 32).toNat = j) := by
  induction offs generalizing arr with
  | nil => simp
  | cons o t ih =>
    rw [List.foldl_cons, ih _ (by rw [setDirtyBit_length]; exact hi),
      setDirtyBit_testBit arr o i j hi]
    constructor
    · rintro ((h | h) | ⟨off, hmem, hoff⟩)
      · exact Or.inl h
      · exact Or.inr ⟨o, by simp, h⟩
      · exact Or.inr ⟨off, by simp [hmem], hoff⟩
    · rintro (h | ⟨off, hmem, hoff⟩)
      · exact Or.inl (Or.inl h)
      · rcases List.mem_cons.mp hmem with rfl | hmem2
        · exact Or.inl (Or.inr hoff)
        · exact Or.inr ⟨off, hmem2, hoff⟩

theorem bool_eq_of_true_iff (a b : Bool) (h : (a = true) ↔ (b = true)) : a = b := by
  cases a <;> cases b <;> simp_all

theorem getD_eq_getElem_of_lt {α : Type} (l : List α) (i : Nat) (d : α) (h : i < l.length) :
    l.getD i d = l[i] := by
  rw [List.getD_eq_getElem?_getD, List.getElem?_eq_getElem h]
  rfl

theorem foldl_setDirtyBit_eq_of_mem_iff (offs1 offs2 : List Int) (arr : List Nat)
    (h : ∀ o, o ∈ offs1 ↔ o ∈ offs2) :
    offs1.foldl setDirtyBit arr = offs2.foldl setDirtyBit arr := by
  apply List.ext_getElem (by rw [foldl_setDirtyBit_length, foldl_setDirtyBit_length])
  intro i h1 h2
  have hlen : i < arr.length := by rwa [foldl_setDirtyBit_length] at h1
  have hD : (offs1.foldl setDirtyBit arr).getD i 0 = (offs2.foldl setDirtyBit arr).getD i 0 := by
    apply Nat.eq_of_testBit_eq
    intro j
    apply bool_eq_of_true_iff
    rw [foldl_setDirtyBit_testBit _ _ _ _ hlen, foldl_setDirtyBit_testBit _ _ _ _ hlen]
    constructor
    · rintro (hb | ⟨off, hmem, hoff⟩)
      · exact Or.inl hb
      · exact Or.inr ⟨off, (h off).mp hmem, hoff⟩
    · rintro (hb | ⟨off, hmem, hoff⟩)
      · exact Or.inl hb
      · exact Or.inr ⟨off, (h off).mpr hmem, hoff⟩
  rw [← getD_eq_getElem_of_lt _ _ 0 h1, ← getD_eq_getElem_of_lt _ _ 0 h2, hD]

theorem foldl_setDirtyBit_idem (offs : List Int) (arr : List Nat) :
    offs.foldl setDirtyBit (offs.foldl setDirtyBit arr) = offs.foldl setDirtyBit arr := by
  apply List.ext_getElem (by rw [foldl_setDirtyBit_length])
  intro i h1 h2
  have hlen : i < arr.length := by rwa [foldl_setDirtyBit_length] at h2
  have hD : (offs.foldl setDirtyBit (offs.foldl setDirtyBit arr)).getD i 0 =
      (offs.foldl setDirtyBit arr).getD i 0 := by
    apply Nat.eq_of_testBit_eq
    intro j
    apply bool_eq_of_true_iff
    rw [foldl_setDirtyBit_testBit _ _ _ _ h2, foldl_setDirtyBit_testBit _ _ _ _ hlen]
    tauto
  rw [← getD_eq_getElem_of_lt _ _ 0 h1, ← getD_eq_getElem_of_lt _ _ 0 h2, hD]

theorem mem_intRangeIncl (a b x : Int) : x ∈ intRangeIncl a b ↔ a ≤ x ∧ x ≤ b := by
  constructor
  · intro hx
    obtain ⟨i, hi, rfl⟩ := List.mem_map.mp hx
    have := List.mem_range.mp hi
    omega
  · intro h
    exact List.mem_map.mpr ⟨(x - a).toNat, List.mem_range.mpr (by omega), by omega⟩

theorem mem_gridOffs (gw gh dx0 dx1 dy0 dy1 o : Int) :
    o ∈ gridOffs gw gh dx0 dx1 dy0 dy1 ↔
      ∃ gy, (dy0 ≤ gy ∧ gy ≤ dy1) ∧ ∃ gx, (dx0 ≤ gx ∧ gx ≤ dx1) ∧
        o = wrapCell gy gh * gw + wrapCell gx gw := by
  simp only [gridOffs, List.mem_flatMap, List.mem_map, mem_intRangeIncl]
  constructor
  · rintro ⟨gy, hgy, gx, hgx, rfl⟩
    exact ⟨gy, hgy, gx, hgx, rfl⟩
  · rintro ⟨gy, hgy, gx, hgx, rfl⟩
    exact ⟨gy, hgy, gx, hgx, rfl⟩

theorem normLow_in_range (v : Int) (m : Nat) (h0 : 0 ≤ v) (h1 : v < (m : Int)) :
    normLow v m = v := by
  unfold normLow
  rw [if_neg (by omega)]

theorem normLow_neg_one (m : Nat) (hm : 1 ≤ m) : normLow (-1) m = (m : Int) - 1 := by
  unfold normLow jsRepeat
  rw [if_pos (by omega)]
  rw [if_pos (by omega : (-1 : Int) < 0)]
  simp only []
  rw [if_neg (by omega : ¬(-1 + (m : Int) < 0))]
  omega

/-- `invalidateRect` written out: both dirty arrays get the same offset
sequence folded in. -/
theorem invalidateRect_unfold (st : RenderState) (rx ry rw rh : Int) :
    invalidateRect st rx ry rw rh =
      { st with
        tilesDirty :=
          (rectOffs st.mapW st.mapH st.gridW st.gridH rx ry rw rh).foldl setDirtyBit
            st.tilesDirty,
        blocksDirty :=
          (rectOffs st.mapW st.mapH st.gridW st.gridH rx ry rw rh).foldl setDirtyBit
            st.blocksDirty } := rfl

theorem invalidateRect_twice (st : RenderState) (rx ry rw rh : Int) :
    invalidateRect (invalidateRect st rx ry rw rh) rx ry rw rh =
      invalidateRect st rx ry rw rh := by
  conv_lhs => rw [invalidateRect_unfold, invalidateRect_unfold]
  conv_rhs => rw [invalidateRect_unfold]
  dsimp only
  rw [foldl_setDirtyBit_idem, foldl_setDirtyBit_idem]

/-- C6: invalidating the same rectangle `N ≥ 1` times, from any starting
state, leaves both dirty bitsets (and the whole renderer state) identical to
invalidating it once. -/
theorem c6_invalidateRect_idempotent (st : RenderState) (rx ry rw rh : Int) (N : Nat)
    (hN : 1 ≤ N) :
    (fun s => invalidateRect s rx ry rw rh)^[N] st = invalidateRect st rx ry rw rh := by
  induction N with
  | zero => omega
  | succ n ih =>
    rcases Nat.eq_zero_or_pos n with rfl | hn
    · rw [Function.iterate_one]
    · rw [Function.iterate_succ_apply', ih hn]
      exact invalidateRect_twice st rx ry rw rh

/-- Witness for C6: three invalidations of the same rectangle on the 8×8
example state equal a single one. -/
theorem c6_invalidateRect_idempotent_witness :
    1 ≤ 3 ∧ (fun s => invalidateRect s 1 1 2 2)^[3] smallMapState =
      invalidateRect smallMapState 1 1 2 2 :=
  ⟨by decide, c6_invalidateRect_idempotent smallMapState 1 1 2 2 3 (by decide)⟩

/-! ### C4: `invalidateAll` coverage -/

/-- Every valid row (or column) index is reached by the wrapped traversal of
`invalidateAll`: the loop runs from `(m-1) >> 3` to `(2m) >> 3` and wraps once
past `g = ceil(m/8)`. -/
theorem wrapCell_coverage (m g v : Nat) (hm : 1 ≤ m) (hg : g = (m + 7) / 8) (hv : v < g) :
    ∃ gi : Int, (((m : Int) - 1) / 8 ≤ gi ∧ gi ≤ (2 * (m : Int)) / 8) ∧
      wrapCell gi (g : Int) = (v : Int) := by
  by_cases hcase : ((m : Int) - 1) / 8 ≤ (v : Int)
  · refine ⟨(v : Int), ⟨hcase, by omega⟩, ?_⟩
    unfold wrapCell
    rw [if_neg (by omega)]
  · refine ⟨(v : Int) + (g : Int), ⟨by omega, by omega⟩, ?_⟩
    unfold wrapCell
    rw [if_pos (by omega)]
    omega

theorem rectOffs_invalidateAll (mw mh gw gh : Nat) (hw : 1 ≤ mw) (hh : 1 ≤ mh) :
    rectOffs mw mh gw gh 0 0 (mw : Int) (mh : Int) =
      gridOffs gw gh (((mw : Int) - 1) / 8) ((2 * (mw : Int)) / 8)
        (((mh : Int) - 1) / 8) ((2 * (mh : Int)) / 8) := by
  simp only [rectOffs]
  rw [show ((0 : Int) - 1) = -1 by norm_num, normLow_neg_one mw hw, normLow_neg_one mh hh]
  rw [show ((mw : Int) - 1 + mw + 1) = 2 * mw by ring,
    show ((mh : Int) - 1 + mh + 1) = 2 * mh by ring]

theorem foldl_marks_valid (arr : List Nat) (mw mh gw gh : Nat)
    (hw : 1 ≤ mw) (hh : 1 ≤ mh) (hgw : gw = (mw + 7) / 8) (hgh : gh = (mh + 7) / 8)
    (hlen : arr.length = (gw * gh + 31) / 32)
    (cx cy : Nat) (hcx : cx < gw) (hcy : cy < gh) :
    getBit ((rectOffs mw mh gw gh 0 0 (mw : Int) (mh : Int)).foldl setDirtyBit arr)
      (cy * gw + cx) = true := by
  have hmem : ((cy * gw + cx : Nat) : Int) ∈ rectOffs mw mh gw gh 0 0 (mw : Int) (mh : Int) := by
    rw [rectOffs_invalidateAll mw mh gw gh hw hh, mem_gridOffs]
    obtain ⟨gy, hgy, hwy⟩ := wrapCell_coverage mh gh cy hh hgh hcy
    obtain ⟨gx, hgx, hwx⟩ := wrapCell_coverage mw gw cx hw hgw hcx
    refine ⟨gy, hgy, gx, hgx, ?_⟩
    rw [hwy, hwx]
    push_cast
    ring
  have hword : (cy * gw + cx) / 32 < arr.length := by
    have h1 : (cy + 1) * gw ≤ gh * gw := Nat.mul_le_mul_right gw hcy
    have h2 : cy * gw + cx < gw * gh := by
      have h3 : cy * gw + gw = (cy + 1) * gw := by ring
      have h4 : gh * gw = gw * gh := Nat.mul_comm gh gw
      omega
    rw [hlen]
    omega
  unfold getBit
  apply (foldl_setDirtyBit_testBit _ _ _ _ hword).mpr
  right
  exact ⟨_, hmem, by omega, by omega, by omega⟩

theorem foldl_preserves_bits (offs : List Int) (arr : List Nat) (o : Nat)
    (h : getBit arr o = true) : getBit (offs.foldl setDirtyBit arr) o = true := by
  unfold getBit at *
  by_cases hlt : o / 32 < arr.length
  · exact (foldl_setDirtyBit_testBit _ _ _ _ hlt).mpr (Or.inl h)
  · have h0 : arr.getD (o / 32) 0 = 0 := by
      rw [List.getD_eq_getElem?_getD, List.getElem?_eq_none (by omega)]
      rfl
    rw [h0] at h
    simp [Nat.zero_testBit] at h

/-- C4 (amended): for every attached map (`w, h ≥ 1`, grid dims and bitset
lengths as built by `$createGrid`), `invalidateRect(0, 0, w, h)` — which is
exactly `invalidateAll()` — sets the dirty bit of every valid coarse cell in
both the tile-dirty and the block-dirty bitsets and clears no bit; it does not
under-invalidate.  (It may additionally set bits outside the valid cell range,
see the counterexample.) -/
theorem c4_invalidateAll_marks_all_valid (st : RenderState)
    (hw : 1 ≤ st.mapW) (hh : 1 ≤ st.mapH)
    (hgw : st.gridW = (st.mapW + 7) / 8) (hgh : st.gridH = (st.mapH + 7) / 8)
    (hlen : st.tilesDirty.length = (st.gridW * st.gridH + 31) / 32)
    (hlen2 : st.blocksDirty.length = (st.gridW * st.gridH + 31) / 32) :
    (∀ cx cy, cx < st.gridW → cy < st.gridH →
      getBit (invalidateAll st).tilesDirty (cy * st.gridW + cx) = true ∧
      getBit (invalidateAll st).blocksDirty (cy * st.gridW + cx) = true) ∧
    (∀ o, getBit st.tilesDirty o = true → getBit (invalidateAll st).tilesDirty o = true) ∧
    (∀ o, getBit st.blocksDirty o = true → getBit (invalidateAll st).blocksDirty o = true) := by
  have ht : (invalidateAll st).tilesDirty =
      (rectOffs st.mapW st.mapH st.gridW st.gridH 0 0 (st.mapW : Int) (st.mapH : Int)).foldl
        setDirtyBit st.tilesDirty := rfl
  have hb : (invalidateAll st).blocksDirty =
      (rectOffs st.mapW st.mapH st.gridW st.gridH 0 0 (st.mapW : Int) (st.mapH : Int)).foldl
        setDirtyBit st.blocksDirty := rfl
  refine ⟨fun cx cy hcx hcy => ⟨?_, ?_⟩, fun o h => ?_, fun o h => ?_⟩
  · rw [ht]
    exact foldl_marks_valid _ _ _ _ _ hw hh hgw hgh hlen cx cy hcx hcy
  · rw [hb]
    exact foldl_marks_valid _ _ _ _ _ hw hh hgw hgh hlen2 cx cy hcx hcy
  · rw [ht]
    exact foldl_preserves_bits _ _ _ h
  · rw [hb]
    exact foldl_preserves_bits _ _ _ h

/-- Witness for C4 on the 8×8 example state. -/
theorem c4_invalidateAll_marks_all_valid_witness :
    (1 ≤ smallMapState.mapW ∧ 1 ≤ smallMapState.mapH ∧
      smallMapState.gridW = (smallMapState.mapW + 7) / 8 ∧
      smallMapState.gridH = (smallMapState.mapH + 7) / 8 ∧
      smallMapState.tilesDirty.length =
        (smallMapState.gridW * smallMapState.gridH + 31) / 32) ∧
    getBit (invalidateAll smallMapState).tilesDirty 0 = true :=
  ⟨⟨by decide, by decide, by decide, by decide, by decide⟩,
    ((c4_invalidateAll_marks_all_valid smallMapState (by decide) (by decide) (by decide)
      (by decide) (by decide) (by decide)).1 0 0 (by decide) (by decide)).1⟩

/-- C4 (counterexample): on an 8×8 map the coarse grid has exactly one valid
cell (index 0), yet `invalidateAll` flips bit 1 of the bitset word — a bit
outside the valid cell range — from 0 to 1, so the call does modify bits
outside the valid cell range. -/
theorem c4_invalidateAll_out_of_range :
    smallMapState.gridW * smallMapState.gridH = 1 ∧
    Nat.testBit (smallMapState.tilesDirty.getD 0 0) 1 = false ∧
    Nat.testBit ((invalidateAll smallMapState).tilesDirty.getD 0 0) 1 = true := by
  decide

/-! ### C5: wraparound splitting -/

/-- C5: a single `invalidateRect` on a rectangle that straddles the map's
right edge (`rx + rw > mapW`, with `0 ≤ rx < mapW` and `rw ≤ mapW` so the two
pieces are well formed) leaves both dirty bitsets — indeed the whole renderer
state — exactly as the two `invalidateRect` calls on the non-straddling pieces
`(rx, ry, mapW - rx, rh)` and `(0, ry, rx + rw - mapW, rh)` that cover the same
logical tile area split at the map boundary, starting from the same state. -/
theorem c5_invalidateRect_wrap_split (st : RenderState) (rx ry rw rh : Int)
    (h1 : 0 ≤ rx) (h2 : rx < (st.mapW : Int)) (h3 : (st.mapW : Int) < rx + rw)
    (h4 : rw ≤ (st.mapW : Int)) :
    invalidateRect st rx ry rw rh =
      invalidateRect (invalidateRect st rx ry ((st.mapW : Int) - rx) rh)
        0 ry (rx + rw - (st.mapW : Int)) rh := by
  have hrx1 : 1 ≤ rx := by omega
  have hS : rectOffs st.mapW st.mapH st.gridW st.gridH rx ry rw rh =
      gridOffs st.gridW st.gridH ((rx - 1) / 8) ((rx + rw) / 8)
        (normLow (ry - 1) st.mapH / 8) ((normLow (ry - 1) st.mapH + rh + 1) / 8) := by
    simp only [rectOffs]
    rw [normLow_in_range _ _ (by omega) (by omega),
      show (rx - 1 + rw + 1) = rx + rw by ring]
  have hL : rectOffs st.mapW st.mapH st.gridW st.gridH rx ry ((st.mapW : Int) - rx) rh =
      gridOffs st.gridW st.gridH ((rx - 1) / 8) (((st.mapW : Int)) / 8)
        (normLow (ry - 1) st.mapH / 8) ((normLow (ry - 1) st.mapH + rh + 1) / 8) := by
    simp only [rectOffs]
    rw [normLow_in_range _ _ (by omega) (by omega),
      show (rx - 1 + ((st.mapW : Int) - rx) + 1) = (st.mapW : Int) by ring]
  have hR : rectOffs st.mapW st.mapH st.gridW st.gridH 0 ry (rx + rw - (st.mapW : Int)) rh =
      gridOffs st.gridW st.gridH (((st.mapW : Int) - 1) / 8) ((rx + rw) / 8)
        (normLow (ry - 1) st.mapH / 8) ((normLow (ry - 1) st.mapH + rh + 1) / 8) := by
    simp only [rectOffs]
    rw [show ((0 : Int) - 1) = -1 by norm_num, normLow_neg_one st.mapW (by omega),
      show ((st.mapW : Int) - 1 + (rx + rw - (st.mapW : Int)) + 1) = rx + rw by ring]
  have hmem : ∀ o, o ∈ rectOffs st.mapW st.mapH st.gridW st.gridH rx ry rw rh ↔
      o ∈ (rectOffs st.mapW st.mapH st.gridW st.gridH rx ry ((st.mapW : Int) - rx) rh ++
           rectOffs st.mapW st.mapH st.gridW st.gridH 0 ry (rx + rw - (st.mapW : Int)) rh) := by
    intro o
    rw [hS, hL, hR, List.mem_append, mem_gridOffs, mem_gridOffs, mem_gridOffs]
    constructor
    · rintro ⟨gy, hgy, gx, hgx, rfl⟩
      by_cases hcase : gx ≤ (st.mapW : Int) / 8
      · exact Or.inl ⟨gy, hgy, gx, ⟨hgx.1, hcase⟩, rfl⟩
      · exact Or.inr ⟨gy, hgy, gx, ⟨by omega, hgx.2⟩, rfl⟩
    · rintro (⟨gy, hgy, gx, hgx, rfl⟩ | ⟨gy, hgy, gx, hgx, rfl⟩)
      · exact ⟨gy, hgy, gx, ⟨hgx.1, by omega⟩, rfl⟩
      · exact ⟨gy, hgy, gx, ⟨by omega, hgx.2⟩, rfl⟩
  conv_lhs => rw [invalidateRect_unfold]
  conv_rhs => rw [invalidateRect_unfold, invalidateRect_unfold]
  dsimp only
  rw [← List.foldl_append, ← List.foldl_append,
    foldl_setDirtyBit_eq_of_mem_iff _ _ st.tilesDirty hmem,
    foldl_setDirtyBit_eq_of_mem_iff _ _ st.blocksDirty hmem]

/-- Witness for C5: on the 30-wide example map, the rectangle `(5, 2, 30, 4)`
straddles the right edge; one call equals the split calls `(5, 2, 25, 4)` and
`(0, 2, 5, 4)`. -/
theorem c5_invalidateRect_wrap_split_witness :
    ((0 : Int) ≤ 5 ∧ (5 : Int) < (resizeExampleState.mapW : Int) ∧
      ((resizeExampleState.mapW : Int)) < 5 + 30 ∧ (30 : Int) ≤ (resizeExampleState.mapW : Int)) ∧
    invalidateRect resizeExampleState 5 2 30 4 =
      invalidateRect (invalidateRect resizeExampleState 5 2 ((resizeExampleState.mapW : Int) - 5) 4)
        0 2 (5 + 30 - (resizeExampleState.mapW : Int)) 4 :=
  ⟨⟨by decide, by decide, by decide, by decide⟩,
    c5_invalidateRect_wrap_split resizeExampleState 5 2 30 4 (by decide) (by decide)
      (by decide) (by decide)⟩

/-! ### C7: map resize -/

theorem getBit_replicate_ones (n cell : Nat) (h : cell < 32 * n) :
    getBit (List.replicate n 0xFFFFFFFF) cell = true := by
  unfold getBit
  have h1 : cell / 32 < n := by omega
  have h2 : (List.replicate n (0xFFFFFFFF : Nat)).getD (cell / 32) 0 = 0xFFFFFFFF := by
    rw [List.getD_eq_getElem?_getD, List.getElem?_replicate]
    simp [h1]
  rw [h2, show (0xFFFFFFFF : Nat) = 2 ^ 32 - 1 by norm_num, Nat.testBit_two_pow_sub_one]
  simp only [decide_eq_true_eq]
  omega

/-- C7 (amended): a map-resize event that changes the derived coarse-grid
dimensions `ceil(w/8) × ceil(h/8)` rebuilds the grid and both dirty bitsets
from scratch with every bit set (every coarse cell is dirty in both bitsets).
A resize that changes the map dimensions without changing the grid dimensions
leaves the bitsets untouched (see the counterexample). -/
theorem c7_resize_rebuilds_when_grid_changes (st : RenderState) (w h : Nat)
    (hw : w ≠ 0) (hh : h ≠ 0)
    (hchange : ¬(st.gridW = (w + kGridSize - 1) / kGridSize ∧
                 st.gridH = (h + kGridSize - 1) / kGridSize)) :
    (onMapResize st w h).gridW = (w + kGridSize - 1) / kGridSize ∧
    (onMapResize st w h).gridH = (h + kGridSize - 1) / kGridSize ∧
    (onMapResize st w h).tilesDirty =
      List.replicate
        (((w + kGridSize - 1) / kGridSize * ((h + kGridSize - 1) / kGridSize) + 31) >>> 5)
        0xFFFFFFFF ∧
    (onMapResize st w h).blocksDirty =
      List.replicate
        (((w + kGridSize - 1) / kGridSize * ((h + kGridSize - 1) / kGridSize) + 31) >>> 5)
        0xFFFFFFFF ∧
    (∀ cell, cell < (onMapResize st w h).gridW * (onMapResize st w h).gridH →
      getBit (onMapResize st w h).tilesDirty cell = true ∧
      getBit (onMapResize st w h).blocksDirty cell = true) := by
  have hres : onMapResize st w h =
      { st with
        mapW := w,
        mapH := h,
        gridW := (w + kGridSize - 1) / kGridSize,
        gridH := (h + kGridSize - 1) / kGridSize,
        tilesDirty := List.replicate
          (((w + kGridSize - 1) / kGridSize * ((h + kGridSize - 1) / kGridSize) + 31) >>> 5)
          0xFFFFFFFF,
        blocksDirty := List.replicate
          (((w + kGridSize - 1) / kGridSize * ((h + kGridSize - 1) / kGridSize) + 31) >>> 5)
          0xFFFFFFFF } := by
    unfold onMapResize
    rw [if_pos ⟨hw, hh⟩]
    unfold createGrid
    dsimp only
    rw [if_neg hchange]
  rw [hres]
  refine ⟨rfl, rfl, rfl, rfl, fun cell hcell => ⟨?_, ?_⟩⟩ <;>
  · apply getBit_replicate_ones
    rw [Nat.shiftRight_eq_div_pow]
    dsimp only at hcell
    omega

/-- Witness for C7: resizing the 30×30 example map to 40×30 changes the grid
from 4×4 to 5×4 and rebuilds the bitsets fully dirty. -/
theorem c7_resize_rebuilds_when_grid_changes_witness :
    ((40 : Nat) ≠ 0 ∧ (30 : Nat) ≠ 0 ∧
      ¬(resizeExampleState.gridW = (40 + kGridSize - 1) / kGridSize ∧
        resizeExampleState.gridH = (30 + kGridSize - 1) / kGridSize)) ∧
    (onMapResize resizeExampleState 40 30).tilesDirty =
      List.replicate
        (((40 + kGridSize - 1) / kGridSize * ((30 + kGridSize - 1) / kGridSize) + 31) >>> 5)
        0xFFFFFFFF :=
  ⟨⟨by decide, by decide, by decide⟩,
    (c7_resize_rebuilds_when_grid_changes resizeExampleState 40 30 (by decide) (by decide)
      (by decide)).2.2.1⟩

/-- C7 (counterexample): resizing the attached 30×30 map to 31×30 changes the
authoritative map width, but the derived coarse grid stays 4×4, so
`$onMapResize` (via `$createGrid`'s early return) leaves both bitsets exactly
as they were — all-clear here — instead of rebuilding them fully dirty. -/
theorem c7_resize_without_grid_change_keeps_bitsets :
    (31 : Nat) ≠ resizeExampleState.mapW ∧
    (onMapResize resizeExampleState 31 30).tilesDirty = resizeExampleState.tilesDirty ∧
    (onMapResize resizeExampleState 31 30).blocksDirty = resizeExampleState.blocksDirty ∧
    getBit (onMapResize resizeExampleState 31 30).tilesDirty 0 = false := by
  decide

/-- C1 (counterexample): the canonical mask list `PRE` of the terrain-style
transition table does not have at most 16 entries. -/
theorem c1_terrain_pre_not_le_16 : ¬ TerrainTransitions.PRE.length ≤ 16 := by
  set_option maxRecDepth 40000 in decide

/-- C1 (amended): the canonical mask list `PRE` of the terrain-style
transition table contains exactly 46 entries. -/
theorem c1_terrain_pre_length_46 : TerrainTransitions.PRE.length = 46 := by
  set_option maxRecDepth 40000 in decide

/-- C2 (counterexample): in the terrain-style table the entry `LUT[0]` is left
at the builder's initial `-1` placeholder (raw mask 0 is never reached by the
corner loop, which starts at 16, and `effective = Corners` for side combo 0
keeps every `altIndex` distinct from 0). -/
theorem c2_terrain_lut0_unresolved : TerrainTransitions.LUT 0 = -1 := by
  set_option maxRecDepth 40000 in decide

/-- C2 (amended): for every raw mask 0..255, `LUT[raw]` holds a valid index
into `PRE` (i.e. is not the initial `-1` placeholder) with exactly two
exceptions: `LUT[0]` of the terrain-style table and `LUT[15]` of the territory
style table, which both remain `-1`. -/
theorem c2_lut_resolved_except :
    (∀ i, i < 256 → i ≠ 0 →
      0 ≤ TerrainTransitions.LUT i ∧
        TerrainTransitions.LUT i < (TerrainTransitions.PRE.length : Int)) ∧
    (∀ i, i < 256 → i ≠ 15 →
      0 ≤ TerritoryTransitions.LUT i ∧
        TerritoryTransitions.LUT i < (TerritoryTransitions.PRE.length : Int)) ∧
    TerrainTransitions.LUT 0 = -1 ∧ TerritoryTransitions.LUT 15 = -1 := by
  set_option maxRecDepth 40000 in decide

/-- Witness for C2 (amended) at raw mask 37 of the terrain table and raw mask
37 of the territory table. -/
theorem c2_lut_resolved_except_witness :
    ((37 : Nat) < 256 ∧ (37 : Nat) ≠ 0 ∧ 0 ≤ TerrainTransitions.LUT 37) ∧
    ((37 : Nat) < 256 ∧ (37 : Nat) ≠ 15 ∧ 0 ≤ TerritoryTransitions.LUT 37) :=
  ⟨⟨by decide, by decide, (c2_lut_resolved_except.1 37 (by decide) (by decide)).1⟩,
   ⟨by decide, by decide, (c2_lut_resolved_except.2.1 37 (by decide) (by decide)).1⟩⟩

/-! ### C8: river-edge mask -/

theorem testBit_ite_const (A : Prop) [Decidable A] (c j : Nat) :
    (((if A then c else 0).testBit j) = true) ↔ (A ∧ c.testBit j = true) := by
  by_cases hA : A <;> simp [hA, Nat.zero_testBit]

theorem ite_const_lt (A : Prop) [Decidable A] (c bound : Nat) (h0 : 0 < bound)
    (hc : c < bound) : (if A then c else 0) < bound := by
  split <;> omega

/-- C8 (counterexample): a grassland tile carrying the river modifier whose
top neighbor is an ocean tile without the river modifier still gets the Top
bit set in its river mask, so the mask is not computed purely from the
neighbors' river modifiers. -/
theorem c8_river_ocean_neighbor_sets_bit :
    computeRiverEdges TerrainType.Grassland TerrainModifier.kRiver
        ⟨TerrainType.Ocean, 0⟩ ⟨TerrainType.Grassland, 0⟩ ⟨TerrainType.Grassland, 0⟩
        ⟨TerrainType.Grassland, 0⟩ = EdgeFlags.Top ∧
    (GameTileData.mk TerrainType.Ocean 0).modifiers &&& TerrainModifier.kRiver = 0 := by
  decide

set_option maxHeartbeats 1600000 in
/-- C8 (amended): for every non-ocean tile that carries the river modifier,
the recomputed river mask is a 4-bit cardinal mask whose bit for a direction
(Top = bit 0, Right = bit 1, Bottom = bit 2, Left = bit 3) is set iff the
cardinal neighbor in that direction carries the river modifier or is an ocean
tile (river mouth). -/
theorem c8_river_edges (id modifiers : Nat) (tc ml bc mr : GameTileData)
    (hid : id ≠ TerrainType.Ocean) (hriv : modifiers &&& TerrainModifier.kRiver ≠ 0) :
    computeRiverEdges id modifiers tc ml bc mr < 16 ∧
    ((computeRiverEdges id modifiers tc ml bc mr).testBit 0 = true ↔
      (tc.modifiers &&& TerrainModifier.kRiver ≠ 0 ∨ tc.id = TerrainType.Ocean)) ∧
    ((computeRiverEdges id modifiers tc ml bc mr).testBit 1 = true ↔
      (mr.modifiers &&& TerrainModifier.kRiver ≠ 0 ∨ mr.id = TerrainType.Ocean)) ∧
    ((computeRiverEdges id modifiers tc ml bc mr).testBit 2 = true ↔
      (bc.modifiers &&& TerrainModifier.kRiver ≠ 0 ∨ bc.id = TerrainType.Ocean)) ∧
    ((computeRiverEdges id modifiers tc ml bc mr).testBit 3 = true ↔
      (ml.modifiers &&& TerrainModifier.kRiver ≠ 0 ∨ ml.id = TerrainType.Ocean)) := by
  have hunfold : computeRiverEdges id modifiers tc ml bc mr =
      ((if tc.modifiers &&& TerrainModifier.kRiver ≠ 0 then EdgeFlags.Top else 0) |||
       (if ml.modifiers &&& TerrainModifier.kRiver ≠ 0 then EdgeFlags.Left else 0) |||
       (if bc.modifiers &&& TerrainModifier.kRiver ≠ 0 then EdgeFlags.Bottom else 0) |||
       (if mr.modifiers &&& TerrainModifier.kRiver ≠ 0 then EdgeFlags.Right else 0)) |||
      ((if tc.id = TerrainType.Ocean then EdgeFlags.Top else 0) |||
       (if ml.id = TerrainType.Ocean then EdgeFlags.Left else 0) |||
       (if bc.id = TerrainType.Ocean then EdgeFlags.Bottom else 0) |||
       (if mr.id = TerrainType.Ocean then EdgeFlags.Right else 0)) := by
    unfold computeRiverEdges
    rw [if_pos (Or.inr hriv), if_pos hid]
  rw [hunfold]
  refine ⟨?_, ?_, ?_, ?_, ?_⟩
  · have hb : (16 : Nat) = 2 ^ 4 := by norm_num
    rw [hb]
    refine Nat.or_lt_two_pow (Nat.or_lt_two_pow (Nat.or_lt_two_pow (Nat.or_lt_two_pow ?_ ?_) ?_) ?_)
      (Nat.or_lt_two_pow (Nat.or_lt_two_pow (Nat.or_lt_two_pow ?_ ?_) ?_) ?_) <;>
      exact ite_const_lt _ _ _ (by norm_num) (by decide)
  all_goals
    simp only [Nat.testBit_or, Bool.or_eq_true, testBit_ite_const, EdgeFlags.Top,
      EdgeFlags.Left, EdgeFlags.Bottom, EdgeFlags.Right]
    simp only [show Nat.testBit 1 0 = true by decide, show Nat.testBit 1 1 = false by decide,
      show Nat.testBit 1 2 = false by decide, show Nat.testBit 1 3 = false by decide,
      show Nat.testBit 2 0 = false by decide, show Nat.testBit 2 1 = true by decide,
      show Nat.testBit 2 2 = false by decide, show Nat.testBit 2 3 = false by decide,
      show Nat.testBit 4 0 = false by decide, show Nat.testBit 4 1 = false by decide,
      show Nat.testBit 4 2 = true by decide, show Nat.testBit 4 3 = false by decide,
      show Nat.testBit 8 0 = false by decide, show Nat.testBit 8 1 = false by decide,
      show Nat.testBit 8 2 = false by decide, show Nat.testBit 8 3 = true by decide]
    tauto

/-- Witness for C8: a grassland river tile with a river to the left and the
ocean on top. -/
theorem c8_river_edges_witness :
    (TerrainType.Grassland ≠ TerrainType.Ocean ∧
      TerrainModifier.kRiver &&& TerrainModifier.kRiver ≠ 0) ∧
    ((computeRiverEdges TerrainType.Grassland TerrainModifier.kRiver
        ⟨TerrainType.Ocean, 0⟩ ⟨TerrainType.Grassland, TerrainModifier.kRiver⟩
        ⟨TerrainType.Grassland, 0⟩ ⟨TerrainType.Grassland, 0⟩).testBit 0 = true ↔
      ((GameTileData.mk TerrainType.Ocean 0).modifiers &&& TerrainModifier.kRiver ≠ 0 ∨
        (GameTileData.mk TerrainType.Ocean 0).id = TerrainType.Ocean)) :=
  ⟨⟨by decide, by decide⟩,
    (c8_river_edges TerrainType.Grassland TerrainModifier.kRiver
      ⟨TerrainType.Ocean, 0⟩ ⟨TerrainType.Grassland, TerrainModifier.kRiver⟩
      ⟨TerrainType.Grassland, 0⟩ ⟨TerrainType.Grassland, 0⟩
      (by decide) (by decide)).2.1⟩

/-! ### C10: fog player selection -/

/-- C10: with no fog player selected (`playerId = -1`), recomputing any tile
stores `coverEdges = 0` whatever the per-player uncovered bitset holds (the
bitset is never consulted: the result is independent of it), so neither the
fully-fogged sentinel 256 nor any partial-fog mask can occur; and the
`playerId` setter is a no-op when assigned its current value, while assigning
a different value stores it and invalidates the whole map. -/
theorem c10_playerId_fog (st : RenderState) (id2 : Int) :
    (∀ (uncovered : List Nat) (w h x y : Nat),
      computeCoverEdges (-1) uncovered w h x y = 0) ∧
    setPlayerId st st.playerId = st ∧
    (st.playerId ≠ id2 →
      setPlayerId st id2 = invalidateAll { st with playerId := id2 }) := by
  refine ⟨fun uncovered w h x y => ?_, ?_, fun hne => ?_⟩
  · unfold computeCoverEdges
    rw [if_neg (by simp)]
  · unfold setPlayerId
    rw [if_neg (by simp)]
  · unfold setPlayerId
    rw [if_pos hne]

/-- Witness for C10 on the 8×8 example state with fog player 3. -/
theorem c10_playerId_fog_witness :
    computeCoverEdges (-1) [5, 77] 4 4 2 2 = 0 ∧
    setPlayerId smallMapState smallMapState.playerId = smallMapState ∧
    smallMapState.playerId ≠ 3 ∧
    setPlayerId smallMapState 3 = invalidateAll { smallMapState with playerId := 3 } :=
  ⟨(c10_playerId_fog smallMapState 3).1 [5, 77] 4 4 2 2,
   (c10_playerId_fog smallMapState 3).2.1,
   by decide,
   (c10_playerId_fog smallMapState 3).2.2 (by decide)⟩
